import Mathlib

/-!
Verification of the visor wallet-dashboard repository.

This file gives a shallow embedding, in Lean 4, of the data-aggregation
pipeline of the repository (the `WalletAssets` component, the CoinMarketCap
proxy server, the `StakingData` component and the `WalletSymbols` component)
and proves the properties claimed by the specification about it.

Conventions used throughout the embedding:
* JavaScript numbers that hold amounts or prices are modelled as `ℚ`;
  the JavaScript value `NaN` is modelled by `none` in `Option ℚ`.
* JavaScript strings are Lean `String`s; `undefined`-able fields are
  `Option String`.
* A JavaScript `Map` is an association list in insertion order
  (`Map.set` replaces the value of an existing key in place and appends a
  new key at the end, which `mapSet` below reproduces).
* Asynchronous HTTP requests are modelled by passing their outcome as an
  explicit argument (`Option` / a dedicated outcome type): `some`/`ok` is a
  resolved promise, the other constructors are rejections.  Each distinct
  request gets its own outcome, so a run of the code is a pure function of
  the outcomes of the requests it makes.
-/

/-! ## Small JavaScript semantics helpers -/

/-- Value of a decimal digit character. -/
def digitVal (c : Char) : Nat := c.toNat - 48

/-- Natural number denoted by a list of decimal digit characters
(most significant first); `0` for the empty list. -/
def digitsToNat (l : List Char) : Nat :=
  l.foldl (fun a c => a * 10 + digitVal c) 0

/-- JavaScript `parseFloat`, restricted to the plain decimal strings that occur
in this code base (an optional sign, an integer part, an optional fraction; no
exponents).  Returns `none` where JavaScript returns `NaN`, i.e. when no digit
can be parsed from the front of the (whitespace-trimmed) string. -/
def parseFloatQ (s : String) : Option ℚ :=
  let l := s.data.dropWhile (fun c => c = ' ')
  let signed : ℚ × List Char :=
    match l with
    | '-' :: rest => (-1, rest)
    | '+' :: rest => (1, rest)
    | _ => (1, l)
  let intPart := signed.2.takeWhile Char.isDigit
  let rest := signed.2.dropWhile Char.isDigit
  let fracPart :=
    match rest with
    | '.' :: r2 => r2.takeWhile Char.isDigit
    | _ => []
  if intPart.isEmpty && fracPart.isEmpty then none
  else
    some (signed.1 *
      ((digitsToNat intPart : ℚ) +
        (digitsToNat fracPart : ℚ) / ((10 : ℚ) ^ fracPart.length)))

/-- JavaScript `parseInt(s, 10)`, restricted to the plain decimal strings that
occur here; `none` where JavaScript returns `NaN`. -/
def parseIntNat (s : String) : Option Nat :=
  let l := s.data.dropWhile (fun c => c = ' ')
  let d := l.takeWhile Char.isDigit
  if d.isEmpty then none else some (digitsToNat d)

/-- Whether the pattern list is a contiguous sublist of the haystack list
(the semantics of `String.prototype.includes` on the underlying characters). -/
def containsSub (hay pat : List Char) : Bool :=
  match hay with
  | [] => pat.isEmpty
  | _ :: rest => pat.isPrefixOf hay || containsSub rest pat

/-- JavaScript `hay.includes(pat)` (case sensitive). -/
def strIncludes (hay pat : String) : Bool :=
  containsSub hay.data pat.data

/-- JavaScript `String.prototype.toLowerCase` (character-wise, which is all
the ASCII symbols and addresses here need). -/
def strToLower (s : String) : String := String.mk (s.data.map Char.toLower)

/-- JavaScript `String.prototype.toUpperCase` (character-wise). -/
def strToUpper (s : String) : String := String.mk (s.data.map Char.toUpper)

/-- JavaScript `String.prototype.trim`. -/
def jsTrim (s : String) : String :=
  String.mk (((s.data.dropWhile Char.isWhitespace).reverse.dropWhile
    Char.isWhitespace).reverse)

/-- The literal alternatives of `URL_PATTERN_REGEX` in `WalletAssets.js`
(every branch of the regex is a literal string; `\.` is a literal dot). -/
def URL_PATTERN_LIST : List String :=
  ["http", "https", "www.", ".com", ".net", ".org", ".io", ".xyz", ".eth",
   ".app", ".finance", ".exchange", ".crypto", "://", ".me", ".co", ".site",
   ".info", "url=", "link=", "website", "telegram", "twitter", "discord",
   "t.me/", "github"]

/-- The function `containsUrlPattern` of `WalletAssets.js` on a string:
`URL_PATTERN_REGEX.test(str)` with the `i` flag, i.e. some literal alternative
occurs in the lower-cased string. -/
def containsUrlPattern (s : String) : Bool :=
  URL_PATTERN_LIST.any (fun p => strIncludes (strToLower s) p)

/-- The function `containsUrlPattern` on a possibly-`undefined` argument: the
guard `if (!str || typeof str !== 'string') return false` makes it `false` on
`undefined` (and the regex cannot match the empty string anyway). -/
def containsUrlPatternOpt : Option String → Bool
  | some s => containsUrlPattern s
  | none => false

/-! ## Fixed-size chunking

All three batching loops in the repository have the shape
`for (let i = 0; i < arr.length; i += batchSize) { const batch = arr.slice(i, i + batchSize); ... }`
(`fetchTokenBalances` with `batchSize = 5`, `fetchPriceData` with
`batchSize = 3`, `fetchTokenPrices` in `WalletSymbols` with `batchSize = 5`).
`sliceChunks n arr` is the list of the successive `batch` values of that loop.
-/

/-- Successive slices `arr.slice(i, i + n)` for `i = 0, n, 2n, ...` while
`i < arr.length`.  For the batch sizes used in the code (`n ≥ 1`) this is
exactly the sequence of batches of the loops above. -/
def sliceChunks (n : Nat) : List α → List (List α)
  | [] => []
  | x :: xs => ((x :: xs).take n) :: sliceChunks n (xs.drop (n - 1))
  termination_by l => l.length
  decreasing_by simp [List.length_drop]; omega

/-! ## JavaScript `Map` as an insertion-ordered association list -/

/-- JavaScript `map.get(k)` (with `map.has(k)` being `isSome` of this). -/
def mapGet (m : List (String × β)) (k : String) : Option β :=
  match m with
  | [] => none
  | (k2, v) :: rest => if k2 = k then some v else mapGet rest k

/-- JavaScript `map.set(k, v)`: replaces the value of an existing key in
place, appends a new key at the end. -/
def mapSet (m : List (String × β)) (k : String) (v : β) : List (String × β) :=
  match m with
  | [] => [(k, v)]
  | (k2, v2) :: rest =>
    if k2 = k then (k, v) :: rest else (k2, v2) :: mapSet rest k v

/-! ## The proxy server (`scripts/fetch-coinmarketcap-api.js`, Express server)

State of the server: the in-memory `priceCache` map and the rate-limiter
counters.  Handlers are modelled as pure functions of the current state, the
current time `Date.now()`, and the outcome of the upstream CoinMarketCap
request (which is only consulted on a cache miss).
-/

/-- Cache duration of the proxy's in-memory price cache: 5 minutes. -/
def CACHE_DURATION : Nat := 5 * 60 * 1000

/-- The body served for a symbol by the proxy (the `responseData` object). -/
structure PriceRespData where
  symbol : String
  name : String
  price : ℚ
  lastUpdated : String
  percentChange24h : ℚ
deriving Repr, DecidableEq

/-- An entry of the proxy's `priceCache` map. -/
structure CacheEntry where
  timestamp : Nat
  data : PriceRespData
deriving Repr, DecidableEq

/-- The proxy's in-memory `priceCache` (symbol, upper case, to entry). -/
abbrev PriceCache := List (String × CacheEntry)

/-- The part of an upstream 200 response used by the handler:
`response.data.data[symbol]` together with its `quote.USD` fields.
`none` for the optional fields models `undefined` (the handler substitutes
defaults with `||`). -/
structure UpstreamQuote where
  name : Option String
  price : ℚ
  lastUpdated : Option String
  percentChange24h : Option ℚ
deriving Repr, DecidableEq

/-- Outcome of the upstream `axios.get` to CoinMarketCap.
`ok (some q)` is a 200 response holding a well-formed quote for the requested
symbol; `ok none` is a 200 response in which `data.data[symbol]` or its
`quote.USD.price` is missing (the two `404` branches of the handler);
`httpError s` is a rejection with `error.response.status = s`;
`timeout` is `ECONNABORTED`; `netError` is any other rejection. -/
inductive UpstreamResult where
  | ok (quote : Option UpstreamQuote)
  | httpError (status : Nat)
  | timeout
  | netError (msg : String)
deriving Repr, DecidableEq

/-- HTTP response of a proxy endpoint, as observed by the browser client:
either `200` with a price body, or an error status. -/
inductive ProxyResp where
  | ok (body : PriceRespData)
  | error (status : Nat)
deriving Repr, DecidableEq

/-- Construction of `responseData` from the upstream quote in the
`/api/price/:symbol` handler (`name || symbol`,
`last_updated || new Date().toISOString()`, `percent_change_24h || 0`).
`nowIso` stands for `new Date().toISOString()`. -/
def mkResponseData (symbol nowIso : String) (q : UpstreamQuote) : PriceRespData :=
  { symbol := symbol
    name := q.name.getD symbol
    price := q.price
    lastUpdated := q.lastUpdated.getD nowIso
    percentChange24h := q.percentChange24h.getD 0 }

/-- The cache check at the top of the `/api/price/:symbol` handler: the cached
entry for `cacheKey` is returned iff it exists and is younger than
`CACHE_DURATION`. -/
def proxyCacheLookup (cache : PriceCache) (now : Nat) (cacheKey : String) :
    Option CacheEntry :=
  match mapGet cache cacheKey with
  | some e => if now - e.timestamp < CACHE_DURATION then some e else none
  | none => none

/-- The part of the `/api/price/:symbol` handler that runs on a cache miss:
the upstream request and the `try`/`catch` around it.  Returns the HTTP
response together with the updated `priceCache`. -/
def apiPriceSymbolMiss (cache : PriceCache) (now : Nat) (symbol cacheKey nowIso : String)
    (upstream : UpstreamResult) : ProxyResp × PriceCache :=
  match upstream with
  | .ok (some q) =>
    let responseData := mkResponseData symbol nowIso q
    (.ok responseData, mapSet cache cacheKey { timestamp := now, data := responseData })
  | .ok none => (.error 404, cache)
  | .httpError status =>
    if status = 429 then
      -- rate limited upstream: serve any cached entry for the symbol,
      -- regardless of its age; 429 only when none exists
      match mapGet cache cacheKey with
      | some e => (.ok e.data, cache)
      | none => (.error 429, cache)
    else (.error status, cache)
  | .timeout => (.error 504, cache)
  | .netError _ => (.error 500, cache)

/-- The `/api/price/:symbol` handler of the proxy server.  `cacheKey` is
`symbol.toUpperCase()`. -/
def apiPriceSymbol (cache : PriceCache) (now : Nat) (symbol nowIso : String)
    (upstream : UpstreamResult) : ProxyResp × PriceCache :=
  let cacheKey := strToUpper symbol
  match proxyCacheLookup cache now cacheKey with
  | some e => (.ok e.data, cache)
  | none => apiPriceSymbolMiss cache now symbol cacheKey nowIso upstream

/-! ## The proxy server's rate limiter -/

/-- Rate-limit window: one minute. -/
def RATE_LIMIT_WINDOW : Nat := 60 * 1000

/-- Maximum number of requests served per window. -/
def MAX_REQUESTS_PER_WINDOW : Nat := 25

/-- The module-level rate-limiter state: `requestCount` and `windowStart`. -/
structure RLState where
  requestCount : Nat
  windowStart : Nat
deriving Repr, DecidableEq

/-- The `if (now - windowStart > RATE_LIMIT_WINDOW)` reset at the top of the
`rateLimiter` middleware. -/
def rlWindowCheck (s : RLState) (now : Nat) : RLState :=
  if now - s.windowStart > RATE_LIMIT_WINDOW then
    { requestCount := 0, windowStart := now }
  else s

/-- The `rateLimiter` middleware on an incoming request at time `now`:
returns the new state and whether the request proceeds (`true`) or is
rejected with HTTP 429 (`false`). -/
def rateLimiter (s : RLState) (now : Nat) : RLState × Bool :=
  let s1 := rlWindowCheck s now
  if s1.requestCount ≥ MAX_REQUESTS_PER_WINDOW then (s1, false)
  else ({ s1 with requestCount := s1.requestCount + 1 }, true)

/-- An event touching the rate limiter: an incoming request, or the
`setInterval` timer firing (which zeroes the counter and restarts the
window). -/
inductive RLEvent where
  | request (now : Nat)
  | timerReset (now : Nat)
deriving Repr, DecidableEq

/-- One step of the rate limiter; the boolean is `true` iff the event was a
request and it was served. -/
def rlStep (s : RLState) (e : RLEvent) : RLState × Bool :=
  match e with
  | .request now => rateLimiter s now
  | .timerReset now => ({ requestCount := 0, windowStart := now }, false)

/-- A run of the rate limiter over a list of events; the second component
counts the served requests. -/
def rlRun (s : RLState) (es : List RLEvent) : RLState × Nat :=
  match es with
  | [] => (s, 0)
  | e :: rest =>
    let step := rlStep s e
    let tail := rlRun step.1 rest
    (tail.1, (if step.2 then 1 else 0) + tail.2)

/-! ## `WalletAssets.js`: token data types -/

/-- Expiry of the token-balance caches in `WalletAssets.js`: 5 minutes. -/
def CACHE_EXPIRY : Nat := 5 * 60 * 1000

/-- A token transaction record from the Etherscan `tokentx` response; the
fields the component reads, each possibly `undefined`. -/
structure Tx where
  contractAddress : Option String
  tokenSymbol : Option String
  tokenName : Option String
  tokenDecimal : Option String
deriving Repr, DecidableEq

/-- An entry of `uniqueTokens` built by `processTokenTransactions`. -/
structure TokenInfo where
  address : String
  symbol : String
  name : String
  decimals : Nat
deriving Repr, DecidableEq

/-- A token balance record as produced by `fetchTokenBalance` (the spread of a
`TokenInfo` plus `balance`, `balanceRaw` and, on success, `cacheTime`; on
failure, `error: true`).  A missing `cacheTime` is modelled as `0`, matching
the read `cachedData.cacheTime || 0`. -/
structure TokenRec where
  address : String
  symbol : String
  name : String
  decimals : Nat
  balance : String
  balanceRaw : String
  error : Bool
  cacheTime : Nat
deriving Repr, DecidableEq

/-- The `decimals` field computed by `processTokenTransactions`:
`parseInt(tx.tokenDecimal, 10) || 18` (so `NaN`, a missing field and a parsed
`0` all fall back to 18). -/
def txDecimals (tokenDecimal : Option String) : Nat :=
  match tokenDecimal with
  | some s =>
    match parseIntNat s with
    | some d => if d = 0 then 18 else d
    | none => 18
  | none => 18

/-- ethers `formatUnits value decimals`: the decimal string
`value / 10 ^ decimals`, fraction padded to `decimals` digits and stripped of
trailing zeros, with at least one fractional digit. -/
def formatUnits (value decimals : Nat) : String :=
  let base := 10 ^ decimals
  let ipDigits := (toString (value / base)).data
  let fpRaw := (toString (value % base)).data
  let fpPadded := List.replicate (decimals - fpRaw.length) '0' ++ fpRaw
  let fpTrimmed := (fpPadded.reverse.dropWhile (fun c => c = '0')).reverse
  let fp := if fpTrimmed.isEmpty then ['0'] else fpTrimmed
  String.mk (ipDigits ++ '.' :: fp)

/-! ## `WalletAssets.js`: `fetchEthBalance` -/

/-- The sessionStorage cache check of `fetchEthBalance`: the cached balance is
used iff a parsed entry exists and is less than 2 minutes old. -/
def ethBalanceCacheLookup (now : Nat) (entry : Option (String × Nat)) :
    Option String :=
  match entry with
  | some e => if now - e.2 < 2 * 60 * 1000 then some e.1 else none
  | none => none

/-- The function `fetchEthBalance`: serve from the session cache when fresh,
otherwise use the outcome of `provider.getBalance` — `some wei` a resolved
promise (formatted with `formatEther = formatUnits · 18`), `none` a rejection,
which the surrounding `catch` turns into the string `'Error'`. -/
def fetchEthBalance (now : Nat) (entry : Option (String × Nat))
    (outcome : Option Nat) : String :=
  match ethBalanceCacheLookup now entry with
  | some balance => balance
  | none =>
    match outcome with
    | some wei => formatUnits wei 18
    | none => "Error"

/-! ## `WalletAssets.js`: `processTokenTransactions` -/

/-- The `uniqueTokens` object is an insertion-ordered association from the
lower-cased contract address to the token info. -/
abbrev UniqueTokens := List (String × TokenInfo)

/-- Loop body of `processTokenTransactions` over the transaction list, with
`seen` the `processedAddresses` set.  A transaction without a contract address
is skipped; an address already processed is skipped; the address is marked
processed before the URL-pattern and symbol checks, so a spam or symbol-less
first occurrence also blocks later occurrences of the same address. -/
def processTokenTransactionsAux (seen : List String) : List Tx → UniqueTokens
  | [] => []
  | tx :: rest =>
    match tx.contractAddress with
    | none => processTokenTransactionsAux seen rest
    | some ca =>
      if ca = "" then processTokenTransactionsAux seen rest
      else
        let tokenAddress := strToLower ca
        if seen.contains tokenAddress then processTokenTransactionsAux seen rest
        else
          let seen2 := tokenAddress :: seen
          let hasSymbol :=
            match tx.tokenSymbol with
            | some s => s ≠ "" && jsTrim s ≠ ""
            | none => false
          let containsUrl :=
            containsUrlPatternOpt tx.tokenSymbol ||
            containsUrlPatternOpt tx.tokenName
          if containsUrl then processTokenTransactionsAux seen2 rest
          else if hasSymbol then
            (tokenAddress,
              { address := ca
                symbol := tx.tokenSymbol.getD ""
                name :=
                  match tx.tokenName with
                  | some n => if n = "" then tx.tokenSymbol.getD "" else n
                  | none => tx.tokenSymbol.getD ""
                decimals := txDecimals tx.tokenDecimal }) ::
              processTokenTransactionsAux seen2 rest
          else processTokenTransactionsAux seen2 rest

/-- The function `processTokenTransactions` of `WalletAssets.js`. -/
def processTokenTransactions (txs : List Tx) : UniqueTokens :=
  processTokenTransactionsAux [] txs

/-! ## `WalletAssets.js`: `fetchTokenBalance` and its two caches -/

/-- The module-level `globalTokenBalanceCache` (key
`walletAddress-tokenAddress`). -/
abbrev TokenCache := List (String × TokenRec)

/-- The cache check at the top of `fetchTokenBalance`: the cached record is
used iff it exists and `Date.now() - (cacheTime || 0) < CACHE_EXPIRY`
(5 minutes). -/
def globalTokenCacheLookup (cache : TokenCache) (now : Nat) (cacheKey : String) :
    Option TokenRec :=
  match mapGet cache cacheKey with
  | some cachedData =>
    if now - cachedData.cacheTime < CACHE_EXPIRY then some cachedData else none
  | none => none

/-- The part of `fetchTokenBalance` that runs on a cache miss: the URL-pattern
and symbol re-checks (returning `null`), then the `balanceOf` call —
`some raw` a resolved promise, `none` a rejection or timeout, which the
`catch` turns into a record with `balance: 'Error'` (not cached). -/
def fetchTokenBalanceMiss (cache : TokenCache) (now : Nat) (cacheKey : String)
    (token : TokenInfo) (outcome : Option Nat) : Option TokenRec × TokenCache :=
  if containsUrlPattern token.symbol || containsUrlPattern token.name then
    (none, cache)
  else if token.symbol = "" || jsTrim token.symbol = "" then (none, cache)
  else
    match outcome with
    | some raw =>
      let tokenData : TokenRec :=
        { address := token.address, symbol := token.symbol, name := token.name
          decimals := token.decimals
          balance := formatUnits raw token.decimals
          balanceRaw := toString raw
          error := false, cacheTime := now }
      (some tokenData, mapSet cache cacheKey tokenData)
    | none =>
      (some { address := token.address, symbol := token.symbol
              name := token.name, decimals := token.decimals
              balance := "Error", balanceRaw := "0"
              error := true, cacheTime := 0 }, cache)

/-- The function `fetchTokenBalance` of `WalletAssets.js` for one token:
cache check first, then the checks and the actual fetch. -/
def fetchTokenBalance (cache : TokenCache) (now : Nat) (walletAddress : String)
    (token : TokenInfo) (tokenAddress : String) (outcome : Option Nat) :
    Option TokenRec × TokenCache :=
  let cacheKey := walletAddress ++ "-" ++ tokenAddress
  match globalTokenCacheLookup cache now cacheKey with
  | some cachedData => (some cachedData, cache)
  | none => fetchTokenBalanceMiss cache now cacheKey token outcome

/-- The sessionStorage batch cache check of `fetchTokenBalances`: a parsed
entry `(balances, timestamp)` is used iff it is less than 5 minutes old and,
after dropping cached tokens whose address is not a key of the current
`uniqueTokens`, at least one token remains; the surviving tokens are what is
returned in place of the network fetches. -/
def fetchTokenBalancesCacheCheck (now : Nat) (uniqueTokens : UniqueTokens)
    (entry : Option (List TokenRec × Nat)) : Option (List TokenRec) :=
  match entry with
  | some (balances, timestamp) =>
    if now - timestamp < CACHE_EXPIRY then
      let validCachedBalances := balances.filter fun token =>
        token.address ≠ "" && (mapGet uniqueTokens (strToLower token.address)).isSome
      if validCachedBalances.length > 0 then some validCachedBalances else none
    else none
  | none => none

/-- The `priorityTokens` list of `fetchTokenBalances`. -/
def priorityTokens : List String :=
  ["USDC", "USDT", "DAI", "WETH", "WBTC", "LINK"]

/-- Sort key of the comparator of `fetchTokenBalances`:
`priorityTokens.indexOf(symbol)`, with all non-priority tokens tied after the
priority ones (`List.indexOf` returns `priorityTokens.length` when absent,
which orders exactly as the comparator's `-1` branches do under a stable
sort). -/
def tokenSortKey (uniqueTokens : UniqueTokens) (addr : String) : Nat :=
  priorityTokens.indexOf (((mapGet uniqueTokens addr).map TokenInfo.symbol).getD "")

/-- The `sortedAddresses` list of `fetchTokenBalances`: the keys of
`uniqueTokens`, stably sorted with priority tokens first (JavaScript
`Array.prototype.sort` is stable and the comparator returns `0` on
non-priority pairs). -/
def sortedAddresses (uniqueTokens : UniqueTokens) : List String :=
  List.insertionSort
    (fun a b => tokenSortKey uniqueTokens a ≤ tokenSortKey uniqueTokens b)
    (uniqueTokens.map Prod.fst)

/-- The per-batch results of the fetch loop of `fetchTokenBalances`, reading
all cache entries from the snapshot `cache` (sound within one run: the cache
keys `walletAddress-tokenAddress` of distinct tokens are distinct, and no
token reads its own write).  `outcomes` gives the outcome of the `balanceOf`
request of each token address. -/
def fetchTokenBalancesResults (cache : TokenCache) (now : Nat)
    (walletAddress : String) (uniqueTokens : UniqueTokens)
    (outcomes : String → Option Nat) : List (Option TokenRec) :=
  (sortedAddresses uniqueTokens).map fun tokenAddress =>
    (fetchTokenBalance cache now walletAddress
      ((mapGet uniqueTokens tokenAddress).getD
        { address := "", symbol := "", name := "", decimals := 18 })
      tokenAddress (outcomes tokenAddress)).1

/-! ## `WalletAssets.js`: `fetchPriceData` -/

/-- A value of the browser-side `priceData` object for one symbol. -/
structure PriceEntry where
  price : ℚ
  percentChange24h : ℚ
  lastUpdated : String
deriving Repr, DecidableEq

/-- The browser-side price map (a plain object keyed by symbol). -/
abbrev PriceMap := List (String × PriceEntry)

/-- The sessionStorage cache check of `fetchPriceData`: the cached map seeds
`priceCache` iff a parsed entry exists and is less than 2 minutes old
(otherwise `priceCache` stays `{}`). -/
def priceDataCacheLookup (now : Nat) (entry : Option (PriceMap × Nat)) :
    Option PriceMap :=
  match entry with
  | some e => if now - e.2 < 2 * 60 * 1000 then some e.1 else none
  | none => none

/-- JavaScript `[...new Set(arr)]`: duplicates removed, first occurrence
order kept. -/
def jsSetDedup : List String → List String
  | [] => []
  | x :: xs => x :: jsSetDedup (xs.filter (fun y => y ≠ x))
  termination_by l => l.length
  decreasing_by
    simp only [List.length_cons]
    exact Nat.lt_succ_of_le (List.length_filter_le _ _)

/-- The symbol list of `fetchPriceData`: the distinct symbols of the assets,
with `'ETH'` appended when missing. -/
def priceSymbols (assetSymbols : List String) : List String :=
  let symbols := jsSetDedup assetSymbols
  if symbols.contains "ETH" then symbols else symbols ++ ["ETH"]

/-- The batched fetch loop of `fetchPriceData`: over each batch, each symbol's
request either resolves with an entry (`response.status === 200 && response.data`,
recorded into `priceData`) or rejects — the per-symbol `.catch` returns `null`
and the symbol is simply left absent.  `outcomes` gives each symbol's request
outcome. -/
def fetchPriceDataLoop (priceData : PriceMap) (batches : List (List String))
    (outcomes : String → Option PriceEntry) : PriceMap :=
  batches.foldl
    (fun acc batch =>
      batch.foldl
        (fun m symbol =>
          match outcomes symbol with
          | some entry => mapSet m symbol entry
          | none => m)
        acc)
    priceData

/-- The function `fetchPriceData` of `WalletAssets.js`, happy path (the outer
`catch` fires only on cache-parsing or storage faults, which the pure model
does not have): seed from the session cache when fresh, fetch the missing
symbols in batches of 3, return the merged map. -/
def fetchPriceData (now : Nat) (entry : Option (PriceMap × Nat))
    (assetSymbols : List String) (outcomes : String → Option PriceEntry) :
    PriceMap :=
  let symbols := priceSymbols assetSymbols
  let priceCache := (priceDataCacheLookup now entry).getD []
  let symbolsToFetch := symbols.filter (fun s => (mapGet priceCache s).isNone)
  fetchPriceDataLoop priceCache (sliceChunks 3 symbolsToFetch) outcomes

/-! ## `WalletAssets.js`: `fetchAssets` (valuation and filtering) -/

/-- An element of the `assetsWithValue` list built in `fetchAssets`.
`usdValue = none` models a `NaN` USD value (`Option ℚ` multiplication by a
present price propagates it, as `NaN * p` does). -/
structure AssetVal where
  address : String
  symbol : String
  name : String
  balance : String
  usdValue : Option ℚ
  error : Bool
deriving Repr, DecidableEq

/-- The `validBalances` filter of `fetchAssets`: drop error records, records
whose balance does not parse to a positive number (`parseFloat(balance) > 0`
is false on `NaN`), records without a symbol, and records with URL-like
patterns in symbol or name. -/
def validBalances (tokenBalances : List TokenRec) : List TokenRec :=
  tokenBalances.filter fun token =>
    !token.error &&
    (match parseFloatQ token.balance with
     | some q => decide (0 < q)
     | none => false) &&
    token.symbol ≠ "" && jsTrim token.symbol ≠ "" &&
    !containsUrlPattern token.symbol && !containsUrlPattern token.name

/-- The ETH element of `assetsWithValue`.  `ethBalance` is the component's
`ethBalance` state string (`'0'` initially, later a `formatEther` result or
`'Error'`); with a fetched ETH price the value is
`parseFloat(ethBalance) * price` (`NaN` when the balance does not parse),
without one it is `0`. -/
def ethAssetWithValue (ethBalance : String) (prices : PriceMap) : AssetVal :=
  { address := "", symbol := "ETH", name := "Ethereum", balance := ethBalance
    error := false
    usdValue :=
      match mapGet prices "ETH" with
      | some e => (parseFloatQ ethBalance).map (fun b => b * e.price)
      | none => some 0 }

/-- The non-ETH part of `assetsWithValue`: each valid token valued at
`parseFloat(balance) * price`, with price `0` when the symbol has no fetched
price. -/
def tokenAssetsWithValue (tokenBalances : List TokenRec) (prices : PriceMap) :
    List AssetVal :=
  (validBalances tokenBalances).map fun asset =>
    let price := match mapGet prices asset.symbol with
                 | some e => e.price
                 | none => 0
    { address := asset.address, symbol := asset.symbol, name := asset.name
      balance := asset.balance, error := asset.error
      usdValue := (parseFloatQ asset.balance).map (fun b => b * price) }

/-- The `assetsWithValue` list of `fetchAssets`: the ETH entry followed by the
valued tokens.  Every element is constructed with a `usdValue`, so the
`usdValue === undefined` backfill before `onAssetsLoaded` is the identity and
this list is exactly what `onAssetsLoaded` receives. -/
def assetsWithValue (ethBalance : String) (tokenBalances : List TokenRec)
    (prices : PriceMap) : List AssetVal :=
  ethAssetWithValue ethBalance prices :: tokenAssetsWithValue tokenBalances prices

/-- The net-worth accumulation of `fetchAssets`:
`if (asset.usdValue && !isNaN(asset.usdValue)) totalNetWorth += asset.usdValue`
— a `0` value is falsy and skipped, a `NaN` value is skipped. -/
def totalNetWorth (assets : List AssetVal) : ℚ :=
  assets.foldl
    (fun acc asset =>
      match asset.usdValue with
      | some q => if q ≠ 0 then acc + q else acc
      | none => acc)
    0

/-- The `sortedAssets` display list: the token entries of `assetsWithValue`
sorted by USD value, highest first (comparator `b.usdValue - a.usdValue`; a
`NaN` value is modelled as `0` for ordering purposes — only the membership and
the ETH-free domain of this list are used below). -/
def sortedAssets (ethBalance : String) (tokenBalances : List TokenRec)
    (prices : PriceMap) : List AssetVal :=
  List.insertionSort
    (fun a b => (b.usdValue.getD 0) ≤ (a.usdValue.getD 0))
    ((assetsWithValue ethBalance tokenBalances prices).drop 1)

/-! ## `WalletAssets.js`: rate-limit flag and the asset-fetch effect -/

/-- The `WalletAssets` component state that drives fetching: the
`isRateLimited` and `initialFetchDone` flags. -/
structure WAState where
  isRateLimited : Bool
  initialFetchDone : Bool
deriving Repr, DecidableEq

/-- An error object as inspected by the rate-limit checks: `err.message` and
`err.response?.status`. -/
structure JsError where
  message : String
  responseStatus : Option Nat
deriving Repr, DecidableEq

/-- The rate-limit test of `fetchTokenData` and `fetchPriceData`:
message contains `'rate limit'`, `'too many requests'` or `'429'`, or
`err.response?.status === 429`. -/
def isRateLimitError (e : JsError) : Bool :=
  strIncludes e.message "rate limit" ||
  strIncludes e.message "too many requests" ||
  strIncludes e.message "429" ||
  e.responseStatus == some 429

/-- The rate-limit test of the `fetchAssets` catch block, which looks only at
the message. -/
def isRateLimitErrorMsgOnly (e : JsError) : Bool :=
  strIncludes e.message "rate limit" ||
  strIncludes e.message "too many requests" ||
  strIncludes e.message "429"

/-- The `catch` of `fetchTokenData`: on a rate-limit error it sets
`isRateLimited` and returns an empty transaction list; otherwise it rethrows
(`none`) without touching the flag. -/
def fetchTokenDataOnError (s : WAState) (e : JsError) :
    Option (List Tx) × WAState :=
  if isRateLimitError e then (some [], { s with isRateLimited := true })
  else (none, s)

/-- The `catch` of `fetchEthBalance`: any error — rate-limit conditions
included — yields the string `'Error'` and leaves the flag untouched. -/
def fetchEthBalanceOnError (s : WAState) (e : JsError) : String × WAState :=
  ("Error", s)

/-- The per-symbol `.catch` inside the batch loop of `fetchPriceData`: any
error — an HTTP 429 response included — yields `null` (the symbol is omitted)
and leaves the flag untouched. -/
def priceSymbolOnError (s : WAState) (e : JsError) :
    Option PriceEntry × WAState :=
  (none, s)

/-- The outer `catch` of `fetchPriceData`: on a rate-limit error it sets the
flag and falls back to the session cache regardless of its age; otherwise it
returns `{}` without touching the flag. -/
def fetchPriceDataOnError (s : WAState) (e : JsError)
    (entry : Option (PriceMap × Nat)) : PriceMap × WAState :=
  if isRateLimitError e then
    (match entry with
     | some (data, _) => data
     | none => [], { s with isRateLimited := true })
  else ([], s)

/-- The `catch` of `fetchAssets`: on a (message-only) rate-limit error it sets
the flag; otherwise it records an error message only. -/
def fetchAssetsOnError (s : WAState) (e : JsError) : WAState :=
  if isRateLimitErrorMsgOnly e then { s with isRateLimited := true } else s

/-- The asset-fetch `useEffect` of `WalletAssets`: when `isRateLimited` is set
the fetch is skipped; otherwise a fetch is initiated when the initial fetch
has not been done or an address is connected, and `initialFetchDone` is set.
Returns whether a fetch was initiated. -/
def assetFetchEffect (s : WAState) (address : Option String) : Bool × WAState :=
  if s.isRateLimited then (false, s)
  else if !s.initialFetchDone || address.isSome then
    (true, { s with initialFetchDone := true })
  else (false, s)

/-- The events that touch the `isRateLimited` / `initialFetchDone` state. -/
inductive WAEvent where
  | effect (address : Option String)
  | tokenDataError (e : JsError)
  | ethBalanceError (e : JsError)
  | priceSymbolError (e : JsError)
  | priceDataError (e : JsError) (entry : Option (PriceMap × Nat))
  | assetsError (e : JsError)
deriving Repr, DecidableEq

/-- One step of the component state; the boolean is `true` iff the step
initiated an asset fetch. -/
def waStep (s : WAState) (ev : WAEvent) : WAState × Bool :=
  match ev with
  | .effect address =>
    let r := assetFetchEffect s address
    (r.2, r.1)
  | .tokenDataError e => ((fetchTokenDataOnError s e).2, false)
  | .ethBalanceError e => ((fetchEthBalanceOnError s e).2, false)
  | .priceSymbolError e => ((priceSymbolOnError s e).2, false)
  | .priceDataError e entry => ((fetchPriceDataOnError s e entry).2, false)
  | .assetsError e => (fetchAssetsOnError s e, false)

/-- A run of the component state over a list of events; the second component
counts the asset fetches initiated during the run. -/
def waRun (s : WAState) (evs : List WAEvent) : WAState × Nat :=
  match evs with
  | [] => (s, 0)
  | ev :: rest =>
    let step := waStep s ev
    let tail := waRun step.1 rest
    (tail.1, (if step.2 then 1 else 0) + tail.2)

/-! ## `WalletSymbols.js` (`fetchTokenPrices`) -/

/-- The sessionStorage cache check of `fetchTokenPrices` in `WalletSymbols`:
the whole cached price map is used in place of any fetching iff a parsed entry
exists and is less than 2 minutes old.  (A stale map is kept only as a seed
that successful fetches overwrite — every symbol is still fetched.) -/
def walletSymbolsCacheLookup (now : Nat) (entry : Option (PriceMap × Nat)) :
    Option PriceMap :=
  match entry with
  | some e => if now - e.2 < 2 * 60 * 1000 then some e.1 else none
  | none => none

/-- The batched fetch loop of `fetchTokenPrices`: symbols in batches of 5; a
successful batch response contributes an entry per symbol present in it, a
failed batch contributes nothing (its symbols keep their seeded value, if
any). -/
def fetchTokenPricesLoop (seed : PriceMap) (batches : List (List String))
    (batchOutcomes : List String → Option (String → Option PriceEntry)) :
    PriceMap :=
  batches.foldl
    (fun acc batch =>
      match batchOutcomes batch with
      | some respData =>
        batch.foldl
          (fun m symbol =>
            match respData symbol with
            | some entry => mapSet m symbol entry
            | none => m)
          acc
      | none => acc)
    seed

/-- The function `fetchTokenPrices` of `WalletSymbols.js`: early return of the
fresh cached map, otherwise batched fetching in chunks of 5 over a (possibly
stale) seed. -/
def fetchTokenPrices (now : Nat) (entry : Option (PriceMap × Nat))
    (symbols : List String)
    (batchOutcomes : List String → Option (String → Option PriceEntry)) :
    PriceMap :=
  match walletSymbolsCacheLookup now entry with
  | some prices => prices
  | none =>
    let cachedPrices := match entry with
                        | some e => e.1
                        | none => []
    fetchTokenPricesLoop cachedPrices (sliceChunks 5 symbols) batchOutcomes

/-! ## `StakingData.js` -/

/-- The sessionStorage cache check of `fetchStakingData`: the cached processed
list is used in place of the four API fetches iff a parsed entry exists and is
less than 10 minutes old. -/
def stakingCacheLookup (now : Nat) (entry : Option (α × Nat)) : Option α :=
  match entry with
  | some e => if now - e.2 < 10 * 60 * 1000 then some e.1 else none
  | none => none

/-- The sessionStorage cache check of `fetchLendingData` in `LendingData.js`:
15 minutes. -/
def lendingCacheLookup (now : Nat) (entry : Option (α × Nat)) : Option α :=
  match entry with
  | some e => if now - e.2 < 15 * 60 * 1000 then some e.1 else none
  | none => none

/-- An element of the `stats.data` array of the stakingwatch API, restricted
to the fields the component reads (optional chaining throughout). -/
structure StatsItem where
  stakingTokenSlug : Option String
  stakingTokenSymbol : Option String
  protocolId : Option String
  protocolApiName : Option String
  apy : Option ℚ
  chains : List (Option String)
deriving Repr, DecidableEq

/-- A processed staking opportunity (the display strings `apr` and `tvl`,
derived from `aprValue` and the raw TVL purely for rendering, are omitted). -/
structure StakingRec where
  protocol : String
  asset : String
  aprValue : ℚ
  chains : List String
deriving Repr, DecidableEq

/-- JavaScript `a || b || dflt` over possibly-`undefined` strings: the first
present, non-empty string, else the default. -/
def firstTruthy (l : List (Option String)) (dflt : String) : String :=
  match l with
  | [] => dflt
  | some s :: rest => if s = "" then firstTruthy rest dflt else s
  | none :: rest => firstTruthy rest dflt

/-- The `assetName` of one stats item:
`item.staking_token?.symbol || (tokenMap.get(slug) || {}).symbol || 'Unknown'`.
`tokenMap` maps a token slug to the token's (possibly missing) symbol. -/
def statsAssetName (tokenMap : List (String × Option String))
    (item : StatsItem) : String :=
  let tokenSymbol : Option String :=
    match item.stakingTokenSlug with
    | some slug => (mapGet tokenMap slug).getD none
    | none => none
  firstTruthy [item.stakingTokenSymbol, tokenSymbol] "Unknown"

/-- The `protocolName` of one stats item:
`(protocolMap.get(id) || {}).name || item.protocol?.name || 'Unknown'`. -/
def statsProtocolName (protocolMap : List (String × Option String))
    (item : StatsItem) : String :=
  let protocolObjName : Option String :=
    match item.protocolId with
    | some pid => (mapGet protocolMap pid).getD none
    | none => none
  firstTruthy [protocolObjName, item.protocolApiName] "Unknown"

/-- The `aprValue` of one stats item: `item.apy !== undefined ? item.apy : 0`. -/
def statsAprValue (item : StatsItem) : ℚ := item.apy.getD 0

/-- The record pushed for a kept stats item. -/
def mkStakingRec (protocolMap : List (String × Option String))
    (tokenMap : List (String × Option String)) (item : StatsItem) : StakingRec :=
  { protocol := statsProtocolName protocolMap item
    asset := statsAssetName tokenMap item
    aprValue := statsAprValue item
    chains := item.chains.map (fun c => c.getD "Unknown") }

/-- The `reduce` of `fetchStakingData` over `stats.data`: skip items without a
usable asset symbol (`assetName === 'Unknown'`) and items with
`aprValue <= 0`; push a record for the rest. -/
def processStats (protocolMap tokenMap : List (String × Option String)) :
    List StatsItem → List StakingRec
  | [] => []
  | item :: rest =>
    if statsAssetName tokenMap item = "Unknown" then
      processStats protocolMap tokenMap rest
    else if statsAprValue item ≤ 0 then
      processStats protocolMap tokenMap rest
    else
      mkStakingRec protocolMap tokenMap item ::
        processStats protocolMap tokenMap rest

/-- The `sortedData` of `fetchStakingData`: the processed records sorted by
APR descending (comparator `b.aprValue - a.aprValue`). -/
def sortedStakingData (protocolMap tokenMap : List (String × Option String))
    (stats : List StatsItem) : List StakingRec :=
  List.insertionSort (fun a b => b.aprValue ≤ a.aprValue)
    (processStats protocolMap tokenMap stats)

/-- The `userAssetSymbols` set of `StakingData`: the upper-cased symbols of
the user's assets that have a (truthy) symbol. -/
def userAssetSymbols (userAssets : List AssetVal) : List String :=
  userAssets.filterMap fun asset =>
    if asset.symbol ≠ "" then some (strToUpper asset.symbol) else none

/-- The `filteredStakingData` memo of `StakingData`: empty when the user has
no assets, otherwise the staking records whose asset symbol, upper-cased, is
among the user's upper-cased symbols. -/
def filteredStakingData (userAssets : List AssetVal)
    (stakingData : List StakingRec) : List StakingRec :=
  if userAssets.isEmpty then []
  else stakingData.filter fun item =>
    (userAssetSymbols userAssets).contains (strToUpper item.asset)

/-! ## Sample data for concrete evaluations -/

/-- A well-formed token balance record (no URL patterns, positive balance),
used to evaluate the theorems below at a concrete input. -/
def sampleTokenRec : TokenRec :=
  { address := "0xA", symbol := "AAA", name := "Token A", decimals := 18,
    balance := "1.5", balanceRaw := "1500000000000000000", error := false,
    cacheTime := 0 }

/-- The asset record `fetchAssets` builds from `sampleTokenRec` when no price
was fetched for its symbol. -/
def sampleAsset : AssetVal :=
  { address := "0xA", symbol := "AAA", name := "Token A", balance := "1.5",
    usdValue := (parseFloatQ "1.5").map (fun b => b * 0), error := false }

/-- A clean token info record, as `processTokenTransactions` builds it from
`sampleTx`. -/
def sampleTokenInfo : TokenInfo :=
  { address := "0xB", symbol := "BBB", name := "Token B", decimals := 18 }

/-- A clean Etherscan token transaction. -/
def sampleTx : Tx :=
  { contractAddress := some "0xB", tokenSymbol := some "BBB",
    tokenName := some "Token B", tokenDecimal := some "18" }

/-! ## Helper lemmas -/

/-- The JavaScript `Map.set` semantics on lookups: the written key now maps to
the written value, every other key is untouched. -/
theorem mapGet_mapSet (m : List (String × β)) (k : String) (v : β) (k2 : String) :
    mapGet (mapSet m k v) k2 = if k2 = k then some v else mapGet m k2 := by
  induction m with
  | nil =>
    by_cases h : k = k2
    · subst h; simp [mapSet, mapGet]
    · have h2 : ¬ k2 = k := fun hh => h hh.symm
      simp [mapSet, mapGet, h, h2]
  | cons p rest ih =>
    obtain ⟨k3, v3⟩ := p
    by_cases h3 : k3 = k
    · subst h3
      by_cases h : k3 = k2
      · subst h; simp [mapSet, mapGet]
      · have h2 : ¬ k2 = k3 := fun hh => h hh.symm
        simp [mapSet, mapGet, h, h2]
    · by_cases h : k3 = k2
      · have h2 : ¬ k2 = k := fun hh => h3 (h.trans hh)
        simp [mapSet, mapGet, h3, h, h2]
      · have h2 : ¬ k2 = k3 := fun hh => h hh.symm
        simp [mapSet, mapGet, h3, h, h2, ih]

/-- A chunk list is empty exactly when its input is empty. -/
theorem sliceChunks_eq_nil {l : List α} {n : Nat} :
    sliceChunks n l = [] ↔ l = [] := by
  cases l <;> simp [sliceChunks]

/-- Concatenating the slices of the batching loop gives back the input list
(for a positive batch size). -/
theorem sliceChunks_flatten (n : Nat) (hn : 1 ≤ n) :
    ∀ (len : Nat) (l : List α), l.length ≤ len → (sliceChunks n l).flatten = l := by
  intro len
  induction len with
  | zero =>
    intro l h
    cases l with
    | nil => simp [sliceChunks]
    | cons x xs => simp at h
  | succ k ih =>
    intro l h
    cases l with
    | nil => simp [sliceChunks]
    | cons x xs =>
      rw [sliceChunks]
      rw [List.flatten_cons]
      rw [ih (xs.drop (n - 1)) (by simp [List.length_drop]; simp at h; omega)]
      cases n with
      | zero => omega
      | succ m =>
        rw [List.take_succ_cons]
        simp only [Nat.succ_sub_one]
        rw [List.cons_append, List.take_append_drop]

/-- Every chunk of the batching loop except possibly the last has exactly the
batch size (for a positive batch size). -/
theorem sliceChunks_dropLast_length (n : Nat) (hn : 1 ≤ n) :
    ∀ (len : Nat) (l : List α), l.length ≤ len →
      ∀ c ∈ (sliceChunks n l).dropLast, c.length = n := by
  intro len
  induction len with
  | zero =>
    intro l h c hc
    cases l with
    | nil => simp [sliceChunks] at hc
    | cons x xs => simp at h
  | succ k ih =>
    intro l h c hc
    cases l with
    | nil => simp [sliceChunks] at hc
    | cons x xs =>
      rw [sliceChunks] at hc
      cases hrest : sliceChunks n (xs.drop (n - 1)) with
      | nil => rw [hrest] at hc; simp at hc
      | cons r rs =>
        rw [hrest, List.dropLast_cons₂] at hc
        rcases List.mem_cons.mp hc with hc1 | hc2
        · subst hc1
          have hne : xs.drop (n - 1) ≠ [] := by
            intro hnil
            rw [hnil] at hrest
            simp [sliceChunks] at hrest
          have hlen : n - 1 < xs.length := by
            by_contra hge
            exact hne (List.drop_eq_nil_of_le (by omega))
          simp only [List.length_take, List.length_cons]
          omega
        · rw [← hrest] at hc2
          exact ih (xs.drop (n - 1))
            (by simp [List.length_drop]; simp at h; omega) c hc2

/-- Served requests accumulate in `requestCount` and never exceed the maximum,
as long as the incoming requests fall inside the current window. -/
theorem rlRun_requests_in_window (events : List RLEvent) :
    ∀ (s : RLState),
      (∀ e ∈ events, ∃ t, e = RLEvent.request t ∧
          t - s.windowStart ≤ RATE_LIMIT_WINDOW) →
      s.requestCount ≤ MAX_REQUESTS_PER_WINDOW →
      (rlRun s events).2 + s.requestCount ≤ MAX_REQUESTS_PER_WINDOW := by
  induction events with
  | nil =>
    intro s h hc
    simpa [rlRun] using hc
  | cons e rest ih =>
    intro s h hc
    obtain ⟨t, rfl, hwin⟩ := h _ (List.mem_cons_self _ _)
    have hwc : rlWindowCheck s t = s := by
      unfold rlWindowCheck
      rw [if_neg (by omega)]
    by_cases hmax : s.requestCount ≥ MAX_REQUESTS_PER_WINDOW
    · have hstep : rlStep s (.request t) = (s, false) := by
        simp [rlStep, rateLimiter, hwc, hmax]
      have htail := ih s (fun e he => h e (List.mem_cons_of_mem _ he)) hc
      simp [rlRun, hstep]
      omega
    · have hstep : rlStep s (.request t) =
          ({ s with requestCount := s.requestCount + 1 }, true) := by
        simp [rlStep, rateLimiter, hwc, hmax]
      have htail := ih { s with requestCount := s.requestCount + 1 }
        (fun e he => h e (List.mem_cons_of_mem _ he)) (by simp; omega)
      simp [rlRun, hstep]
      simp at htail
      omega

/-- C4: the proxy's rate limiter is a fixed counter reset on a timer.  When 25
requests have already been counted in the current window an incoming request
is rejected with HTTP 429 and the counter is left unchanged; otherwise the
counter is incremented by one and the request proceeds.  The counter is reset
to zero when the window has elapsed at an incoming request or when the reset
timer fires, and within one window at most 25 requests are served. -/
theorem rateLimiter_fixed_window :
    (∀ (s : RLState) (now : Nat),
      (rlWindowCheck s now).requestCount ≥ MAX_REQUESTS_PER_WINDOW →
        rateLimiter s now = (rlWindowCheck s now, false)) ∧
    (∀ (s : RLState) (now : Nat),
      (rlWindowCheck s now).requestCount < MAX_REQUESTS_PER_WINDOW →
        rateLimiter s now =
          ({ requestCount := (rlWindowCheck s now).requestCount + 1,
             windowStart := (rlWindowCheck s now).windowStart }, true)) ∧
    (∀ (s : RLState) (now : Nat),
      now - s.windowStart > RATE_LIMIT_WINDOW →
        rlWindowCheck s now = { requestCount := 0, windowStart := now }) ∧
    (∀ (s : RLState) (now : Nat),
      rlStep s (.timerReset now) =
        ({ requestCount := 0, windowStart := now }, false)) ∧
    (∀ (events : List RLEvent) (ws : Nat),
      (∀ e ∈ events, ∃ t, e = RLEvent.request t ∧ t - ws ≤ RATE_LIMIT_WINDOW) →
        (rlRun { requestCount := 0, windowStart := ws } events).2 ≤
          MAX_REQUESTS_PER_WINDOW) := by
  refine ⟨?_, ?_, ?_, ?_, ?_⟩
  · intro s now h
    simp [rateLimiter, h]
  · intro s now h
    simp [rateLimiter, Nat.not_le.mpr h]
  · intro s now h
    unfold rlWindowCheck
    rw [if_pos h]
  · intro s now
    rfl
  · intro events ws h
    have := rlRun_requests_in_window events { requestCount := 0, windowStart := ws }
      (by simpa using h) (by simp)
    simpa using this

/-- Witness for `rateLimiter_fixed_window` at concrete inputs: with the
counter at the maximum a request is rejected and the state unchanged, and a
two-request trace inside one window serves at most the maximum. -/
theorem rateLimiter_fixed_window_witness :
    rateLimiter ⟨25, 0⟩ 0 = (rlWindowCheck ⟨25, 0⟩ 0, false) ∧
    (rlRun ⟨0, 0⟩ [RLEvent.request 1, RLEvent.request 2]).2 ≤
      MAX_REQUESTS_PER_WINDOW :=
  ⟨rateLimiter_fixed_window.1 ⟨25, 0⟩ 0 (by decide),
   rateLimiter_fixed_window.2.2.2.2 [RLEvent.request 1, RLEvent.request 2] 0
     (by
       intro e he
       simp at he
       rcases he with rfl | rfl
       · exact ⟨1, rfl, by decide⟩
       · exact ⟨2, rfl, by decide⟩)⟩

/-- C10: when the upstream CoinMarketCap request answers HTTP 429, the proxy's
`/api/price/:symbol` endpoint responds 200 with the previously cached entry
for the symbol whenever one exists — regardless of the entry's age — and
responds 429 exactly when no cached entry for the symbol exists. -/
theorem apiPriceSymbol_upstream_429 :
    ∀ (cache : PriceCache) (now : Nat) (symbol nowIso : String),
      (apiPriceSymbol cache now symbol nowIso (.httpError 429)).1 =
        match mapGet cache (strToUpper symbol) with
        | some e => ProxyResp.ok e.data
        | none => ProxyResp.error 429 := by
  intro cache now symbol nowIso
  unfold apiPriceSymbol proxyCacheLookup apiPriceSymbolMiss
  cases h : mapGet cache (strToUpper symbol) with
  | none => simp [h]
  | some e =>
    by_cases hf : now - e.timestamp < CACHE_DURATION <;> simp [h, hf]

/-- C5: the three batching loops chunk their input lists into consecutive
fixed-size chunks — token-balance lookups in chunks of 5 over the
priority-sorted address list, browser price lookups in chunks of 3, and
`WalletSymbols` batch price lookups in chunks of 5.  Every chunk except
possibly the last has exactly the fixed size, and the concatenated chunks
give back the input list in order, covering every element exactly once. -/
theorem batch_chunking :
    (∀ uniq : UniqueTokens,
      (sliceChunks 5 (sortedAddresses uniq)).flatten = sortedAddresses uniq ∧
      ∀ c ∈ (sliceChunks 5 (sortedAddresses uniq)).dropLast, c.length = 5) ∧
    (∀ symbolsToFetch : List String,
      (sliceChunks 3 symbolsToFetch).flatten = symbolsToFetch ∧
      ∀ c ∈ (sliceChunks 3 symbolsToFetch).dropLast, c.length = 3) ∧
    (∀ symbols : List String,
      (sliceChunks 5 symbols).flatten = symbols ∧
      ∀ c ∈ (sliceChunks 5 symbols).dropLast, c.length = 5) := by
  refine ⟨fun uniq => ⟨?_, ?_⟩, fun l => ⟨?_, ?_⟩, fun l => ⟨?_, ?_⟩⟩ <;>
    first
      | exact sliceChunks_flatten _ (by omega) _ _ le_rfl
      | exact sliceChunks_dropLast_length _ (by omega) _ _ le_rfl

/-- Witness for `batch_chunking` at a concrete input: chunking four symbols
by 3 yields a full first chunk and the chunks flatten back to the input. -/
theorem batch_chunking_witness :
    (sliceChunks 3 ["a", "b", "c", "d"]).flatten = ["a", "b", "c", "d"] ∧
    ["a", "b", "c"].length = 3 :=
  ⟨(batch_chunking.2.1 ["a", "b", "c", "d"]).1,
   (batch_chunking.2.1 ["a", "b", "c", "d"]).2 ["a", "b", "c"]
     (by simp [sliceChunks])⟩

/-- A symbol whose request failed is left exactly as it was in the seed map
by the price fetch loop. -/
theorem fetchPriceDataLoop_failed_symbol_unchanged
    (outcomes : String → Option PriceEntry) (s0 : String)
    (h0 : outcomes s0 = none) :
    ∀ (batches : List (List String)) (pd : PriceMap),
      mapGet (fetchPriceDataLoop pd batches outcomes) s0 = mapGet pd s0 := by
  have inner : ∀ (batch : List String) (pd : PriceMap),
      mapGet (batch.foldl
        (fun m symbol =>
          match outcomes symbol with
          | some entry => mapSet m symbol entry
          | none => m) pd) s0 = mapGet pd s0 := by
    intro batch
    induction batch with
    | nil => intro pd; rfl
    | cons sym rest ih =>
      intro pd
      simp only [List.foldl_cons]
      rw [ih]
      cases hsym : outcomes sym with
      | none => rfl
      | some entry =>
        simp only
        rw [mapGet_mapSet]
        have hne : s0 ≠ sym := by
          intro hh
          rw [hh, hsym] at h0
          exact Option.noConfusion h0
        rw [if_neg hne]
  intro batches
  induction batches with
  | nil => intro pd; rfl
  | cons batch rest ih =>
    intro pd
    have step : fetchPriceDataLoop pd (batch :: rest) outcomes =
        fetchPriceDataLoop
          (batch.foldl (fun m symbol =>
            match outcomes symbol with
            | some entry => mapSet m symbol entry
            | none => m) pd) rest outcomes := by
      simp [fetchPriceDataLoop]
    rw [step, ih, inner]

/-- Changing the outcome of the price request of one symbol does not change
the resulting price map at any other symbol. -/
theorem fetchPriceDataLoop_agree
    (outcomes1 outcomes2 : String → Option PriceEntry) (s0 : String)
    (h : ∀ s, s ≠ s0 → outcomes1 s = outcomes2 s) :
    ∀ (batches : List (List String)) (pd1 pd2 : PriceMap),
      (∀ s, s ≠ s0 → mapGet pd1 s = mapGet pd2 s) →
      ∀ s, s ≠ s0 →
        mapGet (fetchPriceDataLoop pd1 batches outcomes1) s =
        mapGet (fetchPriceDataLoop pd2 batches outcomes2) s := by
  have inner : ∀ (batch : List String) (pd1 pd2 : PriceMap),
      (∀ s, s ≠ s0 → mapGet pd1 s = mapGet pd2 s) →
      ∀ s, s ≠ s0 →
        mapGet (batch.foldl (fun m symbol =>
          match outcomes1 symbol with
          | some entry => mapSet m symbol entry
          | none => m) pd1) s =
        mapGet (batch.foldl (fun m symbol =>
          match outcomes2 symbol with
          | some entry => mapSet m symbol entry
          | none => m) pd2) s := by
    intro batch
    induction batch with
    | nil =>
      intro pd1 pd2 hpd s hs
      exact hpd s hs
    | cons sym rest ih =>
      intro pd1 pd2 hpd s hs
      simp only [List.foldl_cons]
      refine ih _ _ ?_ s hs
      intro s2 hs2
      by_cases hsym : sym = s0
      · subst hsym
        cases h1 : outcomes1 sym <;> cases h2 : outcomes2 sym <;>
          simp only [mapGet_mapSet, if_neg hs2] <;> exact hpd s2 hs2
      · rw [h sym hsym]
        cases h2 : outcomes2 sym with
        | none => exact hpd s2 hs2
        | some e2 =>
          simp only [mapGet_mapSet]
          by_cases he : s2 = sym
          · rw [if_pos he, if_pos he]
          · rw [if_neg he, if_neg he]
            exact hpd s2 hs2
  intro batches
  induction batches with
  | nil =>
    intro pd1 pd2 hpd s hs
    exact hpd s hs
  | cons batch rest ih =>
    intro pd1 pd2 hpd s hs
    have step1 : fetchPriceDataLoop pd1 (batch :: rest) outcomes1 =
        fetchPriceDataLoop (batch.foldl (fun m symbol =>
          match outcomes1 symbol with
          | some entry => mapSet m symbol entry
          | none => m) pd1) rest outcomes1 := by
      simp [fetchPriceDataLoop]
    have step2 : fetchPriceDataLoop pd2 (batch :: rest) outcomes2 =
        fetchPriceDataLoop (batch.foldl (fun m symbol =>
          match outcomes2 symbol with
          | some entry => mapSet m symbol entry
          | none => m) pd2) rest outcomes2 := by
      simp [fetchPriceDataLoop]
    rw [step1, step2]
    exact ih _ _ (inner batch pd1 pd2 hpd) s hs

/-- C1: every individual request of the asset-loading pipeline fails in
isolation.  A rejected ETH balance fetch is caught and becomes the default
string `'Error'`; a rejected `balanceOf` call is caught and becomes a record
with `balance: 'Error'`; a rejected per-symbol price request is caught and the
symbol's entry is simply the seeded (cached) one, absent by default; and the
failure of one request does not change the results computed from the other
requests — the price map at every other symbol, every other token's balance
record, and the token part of the final asset list are unchanged. -/
theorem request_failure_isolation :
    (∀ (now : Nat) (entry : Option (String × Nat)),
      ethBalanceCacheLookup now entry = none →
        fetchEthBalance now entry none = "Error") ∧
    (∀ (cache : TokenCache) (now : Nat) (cacheKey : String) (token : TokenInfo),
      containsUrlPattern token.symbol = false →
      containsUrlPattern token.name = false →
      token.symbol ≠ "" → jsTrim token.symbol ≠ "" →
        fetchTokenBalanceMiss cache now cacheKey token none =
          (some { address := token.address, symbol := token.symbol
                  name := token.name, decimals := token.decimals
                  balance := "Error", balanceRaw := "0"
                  error := true, cacheTime := 0 }, cache)) ∧
    (∀ (pd : PriceMap) (batches : List (List String))
        (outcomes : String → Option PriceEntry) (s0 : String),
      outcomes s0 = none →
        mapGet (fetchPriceDataLoop pd batches outcomes) s0 = mapGet pd s0) ∧
    (∀ (outcomes1 outcomes2 : String → Option PriceEntry) (s0 : String),
      (∀ s, s ≠ s0 → outcomes1 s = outcomes2 s) →
      ∀ (batches : List (List String)) (pd : PriceMap) (s : String), s ≠ s0 →
        mapGet (fetchPriceDataLoop pd batches outcomes1) s =
        mapGet (fetchPriceDataLoop pd batches outcomes2) s) ∧
    (∀ (cache : TokenCache) (now : Nat) (wa : String) (uniq : UniqueTokens)
        (outcomes1 outcomes2 : String → Option Nat) (a0 : String),
      (∀ a, a ≠ a0 → outcomes1 a = outcomes2 a) →
      ∀ (i : Nat) (a : String), (sortedAddresses uniq)[i]? = some a → a ≠ a0 →
        (fetchTokenBalancesResults cache now wa uniq outcomes1)[i]? =
        (fetchTokenBalancesResults cache now wa uniq outcomes2)[i]?) ∧
    (∀ (eth1 eth2 : String) (tb : List TokenRec) (prices : PriceMap),
      (assetsWithValue eth1 tb prices).drop 1 =
      (assetsWithValue eth2 tb prices).drop 1) := by
  refine ⟨?_, ?_, ?_, ?_, ?_, ?_⟩
  · intro now entry h
    unfold fetchEthBalance
    rw [h]
  · intro cache now cacheKey token h1 h2 h3 h4
    unfold fetchTokenBalanceMiss
    rw [if_neg (by simp [h1, h2]), if_neg (by simp [h3, h4])]
  · intro pd batches outcomes s0 h0
    exact fetchPriceDataLoop_failed_symbol_unchanged outcomes s0 h0 batches pd
  · intro o1 o2 s0 h batches pd s hs
    exact fetchPriceDataLoop_agree o1 o2 s0 h batches pd pd (fun _ _ => rfl) s hs
  · intro cache now wa uniq o1 o2 a0 h i a hi hne
    simp only [fetchTokenBalancesResults, List.getElem?_map, hi,
      Option.map_some']
    rw [h a hne]
  · intro eth1 eth2 tb prices
    rfl

/-- Witness for `request_failure_isolation` at concrete inputs: a failed ETH
fetch yields `'Error'`, a failed `balanceOf` for a clean token yields an error
record, a failed price request for `'AAA'` leaves the map empty at `'AAA'`. -/
theorem request_failure_isolation_witness :
    fetchEthBalance 0 none none = "Error" ∧
    fetchTokenBalanceMiss [] 0 "w-0xa"
      { address := "0xA", symbol := "AAA", name := "Token A", decimals := 18 }
      none =
      (some { address := "0xA", symbol := "AAA", name := "Token A"
              decimals := 18, balance := "Error", balanceRaw := "0"
              error := true, cacheTime := 0 }, []) ∧
    mapGet (fetchPriceDataLoop [] [["AAA"]] (fun _ => none)) "AAA" =
      mapGet ([] : PriceMap) "AAA" :=
  ⟨request_failure_isolation.1 0 none rfl,
   request_failure_isolation.2.1 [] 0 "w-0xa"
     { address := "0xA", symbol := "AAA", name := "Token A", decimals := 18 }
     (by decide) (by decide) (by decide) (by decide),
   request_failure_isolation.2.2.1 [] [["AAA"]] (fun _ => none) "AAA" rfl⟩

/-- C2 counterexample: a per-symbol price request failing with an HTTP 429
response — a rate-limit condition by the claim's own definition, as
`isRateLimitError` confirms — is swallowed by the per-symbol `.catch` and does
not set `isRateLimited`.  (The same holds for the ETH balance fetch.) -/
theorem rate_limit_flag_not_set_counterexample :
    isRateLimitError
      { message := "Request failed with status code 429",
        responseStatus := some 429 } = true ∧
    (priceSymbolOnError { isRateLimited := false, initialFetchDone := true }
      { message := "Request failed with status code 429",
        responseStatus := some 429 }).2.isRateLimited = false ∧
    (fetchEthBalanceOnError { isRateLimited := false, initialFetchDone := true }
      { message := "Request failed with status code 429",
        responseStatus := some 429 }).2.isRateLimited = false := by
  refine ⟨by decide, rfl, rfl⟩

/-- C2 (amended): the rate-limit flag is set by a rate-limit failure of the
Etherscan token-data fetch, of the overall price-fetch process, or of the
overall `fetchAssets` flow — but not by per-symbol price, per-token balance or
ETH-balance errors, which are swallowed locally.  Once set the flag is never
cleared, and while it is set the asset-fetch effect never initiates another
fetch: over any event sequence from a rate-limited state, zero fetches are
initiated and the flag stays set. -/
theorem rate_limit_flag_spec :
    (∀ (s : WAState) (e : JsError), isRateLimitError e = true →
      (fetchTokenDataOnError s e).2.isRateLimited = true) ∧
    (∀ (s : WAState) (e : JsError) (entry : Option (PriceMap × Nat)),
      isRateLimitError e = true →
      (fetchPriceDataOnError s e entry).2.isRateLimited = true) ∧
    (∀ (s : WAState) (e : JsError), isRateLimitErrorMsgOnly e = true →
      (fetchAssetsOnError s e).isRateLimited = true) ∧
    (∀ (s : WAState) (address : Option String), s.isRateLimited = true →
      assetFetchEffect s address = (false, s)) ∧
    (∀ (s : WAState) (ev : WAEvent), s.isRateLimited = true →
      (waStep s ev).1.isRateLimited = true) ∧
    (∀ (s : WAState) (evs : List WAEvent), s.isRateLimited = true →
      (waRun s evs).1.isRateLimited = true ∧ (waRun s evs).2 = 0) := by
  have hstep : ∀ (s : WAState) (ev : WAEvent), s.isRateLimited = true →
      (waStep s ev).1.isRateLimited = true ∧ (waStep s ev).2 = false := by
    intro s ev hs
    cases ev with
    | effect address =>
      simp [waStep, assetFetchEffect, hs]
    | tokenDataError e =>
      unfold waStep fetchTokenDataOnError
      by_cases h : isRateLimitError e = true <;> simp [h, hs]
    | ethBalanceError e => exact ⟨hs, rfl⟩
    | priceSymbolError e => exact ⟨hs, rfl⟩
    | priceDataError e entry =>
      unfold waStep fetchPriceDataOnError
      by_cases h : isRateLimitError e = true <;> simp [h, hs]
    | assetsError e =>
      unfold waStep fetchAssetsOnError
      by_cases h : isRateLimitErrorMsgOnly e = true <;> simp [h, hs]
  refine ⟨?_, ?_, ?_, ?_, fun s ev hs => (hstep s ev hs).1, ?_⟩
  · intro s e h
    simp [fetchTokenDataOnError, h]
  · intro s e entry h
    simp [fetchPriceDataOnError, h]
  · intro s e h
    simp [fetchAssetsOnError, h]
  · intro s address hs
    simp [assetFetchEffect, hs]
  · intro s evs
    induction evs generalizing s with
    | nil =>
      intro hs
      exact ⟨hs, rfl⟩
    | cons ev rest ih =>
      intro hs
      obtain ⟨h1, h2⟩ := hstep s ev hs
      obtain ⟨h3, h4⟩ := ih (waStep s ev).1 h1
      constructor
      · simpa [waRun] using h3
      · simp [waRun, h2, h4]

/-- Witness for `rate_limit_flag_spec` at concrete inputs: a rate-limited
Etherscan fetch sets the flag, and from a rate-limited state an effect run
initiates no fetch. -/
theorem rate_limit_flag_spec_witness :
    (fetchTokenDataOnError { isRateLimited := false, initialFetchDone := false }
      { message := "Etherscan rate limit reached",
        responseStatus := none }).2.isRateLimited = true ∧
    (waRun { isRateLimited := true, initialFetchDone := false }
      [WAEvent.effect (some "0xabc")]).2 = 0 :=
  ⟨rate_limit_flag_spec.1 { isRateLimited := false, initialFetchDone := false }
    { message := "Etherscan rate limit reached", responseStatus := none }
    (by decide),
   (rate_limit_flag_spec.2.2.2.2.2
     { isRateLimited := true, initialFetchDone := false }
     [WAEvent.effect (some "0xabc")] rfl).2⟩

/-- C3 counterexample: the sessionStorage token-balance batch cache can hold a
fresh entry (age 0, TTL 5 minutes) that is nevertheless not used, because none
of its cached tokens belongs to the current `uniqueTokens` — the network fetch
proceeds despite a fresh stored entry, so "used iff it exists and its age is
below the TTL" fails for this cache. -/
theorem ttl_cache_counterexample :
    (0 : Nat) - 0 < CACHE_EXPIRY ∧
    fetchTokenBalancesCacheCheck 0
      [("0xbbb",
        { address := "0xBBB", symbol := "T2", name := "Token two",
          decimals := 18 })]
      (some ([{ address := "0xAAA", symbol := "T1", name := "Token one",
                decimals := 18, balance := "1.0",
                balanceRaw := "1000000000000000000", error := false,
                cacheTime := 0 }], 0)) = none := by
  exact ⟨by decide, by decide⟩

/-- C3 (amended): every cache in the pipeline is a TTL-keyed lookup with the
claimed TTLs — 2 minutes for the ETH balance and the two browser price
caches, 5 minutes for the global token-balance map and the proxy's in-memory
price cache, 10 minutes for staking data, 15 minutes for lending data — and a
stored entry is used in place of a network fetch iff it exists and its age is
below the TTL; except that the sessionStorage token-balance batch cache
(5 minutes) additionally requires at least one cached token to belong to the
current token list.  Map caches are only overwritten, never evicted: a set
replaces exactly the written key and preserves every other key. -/
theorem ttl_cache_spec :
    (∀ (now : Nat) (entry : Option (String × Nat)),
      (ethBalanceCacheLookup now entry).isSome ↔
        ∃ b ts, entry = some (b, ts) ∧ now - ts < 2 * 60 * 1000) ∧
    (∀ (now : Nat) (entry : Option (PriceMap × Nat)),
      (priceDataCacheLookup now entry).isSome ↔
        ∃ d ts, entry = some (d, ts) ∧ now - ts < 2 * 60 * 1000) ∧
    (∀ (now : Nat) (entry : Option (PriceMap × Nat)),
      (walletSymbolsCacheLookup now entry).isSome ↔
        ∃ d ts, entry = some (d, ts) ∧ now - ts < 2 * 60 * 1000) ∧
    (∀ (cache : TokenCache) (now : Nat) (key : String),
      (globalTokenCacheLookup cache now key).isSome ↔
        ∃ td, mapGet cache key = some td ∧ now - td.cacheTime < CACHE_EXPIRY) ∧
    (∀ (now : Nat) (uniq : UniqueTokens) (entry : Option (List TokenRec × Nat)),
      (fetchTokenBalancesCacheCheck now uniq entry).isSome ↔
        ∃ balances ts, entry = some (balances, ts) ∧ now - ts < CACHE_EXPIRY ∧
          0 < (balances.filter fun token =>
            token.address ≠ "" &&
              (mapGet uniq (strToLower token.address)).isSome).length) ∧
    (∀ (cache : PriceCache) (now : Nat) (key : String),
      (proxyCacheLookup cache now key).isSome ↔
        ∃ e, mapGet cache key = some e ∧ now - e.timestamp < CACHE_DURATION) ∧
    (∀ (α : Type) (now : Nat) (entry : Option (α × Nat)),
      (stakingCacheLookup now entry).isSome ↔
        ∃ d ts, entry = some (d, ts) ∧ now - ts < 10 * 60 * 1000) ∧
    (∀ (α : Type) (now : Nat) (entry : Option (α × Nat)),
      (lendingCacheLookup now entry).isSome ↔
        ∃ d ts, entry = some (d, ts) ∧ now - ts < 15 * 60 * 1000) ∧
    (∀ (β : Type) (m : List (String × β)) (k : String) (v : β) (k2 : String),
      mapGet (mapSet m k v) k2 = if k2 = k then some v else mapGet m k2) := by
  refine ⟨?_, ?_, ?_, ?_, ?_, ?_, ?_, ?_, ?_⟩
  · intro now entry
    cases entry with
    | none => simp [ethBalanceCacheLookup]
    | some e =>
      obtain ⟨b, ts⟩ := e
      by_cases h : now - ts < 2 * 60 * 1000
      · constructor
        · intro _
          exact ⟨b, ts, rfl, h⟩
        · intro _
          simp [ethBalanceCacheLookup, h]
      · constructor
        · intro hh
          simp [ethBalanceCacheLookup, h] at hh
        · rintro ⟨x1, ts1, heq, hlt⟩
          cases heq
          exact absurd hlt h
  · intro now entry
    cases entry with
    | none => simp [priceDataCacheLookup]
    | some e =>
      obtain ⟨d, ts⟩ := e
      by_cases h : now - ts < 2 * 60 * 1000
      · constructor
        · intro _
          exact ⟨d, ts, rfl, h⟩
        · intro _
          simp [priceDataCacheLookup, h]
      · constructor
        · intro hh
          simp [priceDataCacheLookup, h] at hh
        · rintro ⟨x1, ts1, heq, hlt⟩
          cases heq
          exact absurd hlt h
  · intro now entry
    cases entry with
    | none => simp [walletSymbolsCacheLookup]
    | some e =>
      obtain ⟨d, ts⟩ := e
      by_cases h : now - ts < 2 * 60 * 1000
      · constructor
        · intro _
          exact ⟨d, ts, rfl, h⟩
        · intro _
          simp [walletSymbolsCacheLookup, h]
      · constructor
        · intro hh
          simp [walletSymbolsCacheLookup, h] at hh
        · rintro ⟨x1, ts1, heq, hlt⟩
          cases heq
          exact absurd hlt h
  · intro cache now key
    cases hk : mapGet cache key with
    | none => simp [globalTokenCacheLookup, hk]
    | some td =>
      by_cases hf : now - td.cacheTime < CACHE_EXPIRY
      · constructor
        · intro _
          exact ⟨td, rfl, hf⟩
        · intro _
          simp [globalTokenCacheLookup, hk, hf]
      · constructor
        · intro hh
          simp [globalTokenCacheLookup, hk, hf] at hh
        · rintro ⟨td1, heq, hlt⟩
          cases heq
          exact absurd hlt hf
  · intro now uniq entry
    cases entry with
    | none => simp [fetchTokenBalancesCacheCheck]
    | some e =>
      obtain ⟨balances, ts⟩ := e
      by_cases h : now - ts < CACHE_EXPIRY
      · by_cases h2 : 0 < (balances.filter fun token =>
            token.address ≠ "" &&
              (mapGet uniq (strToLower token.address)).isSome).length
        · constructor
          · intro _
            exact ⟨balances, ts, rfl, h, h2⟩
          · intro _
            simp only [fetchTokenBalancesCacheCheck, if_pos h]
            rw [if_pos h2]
            rfl
        · constructor
          · intro hh
            simp only [fetchTokenBalancesCacheCheck, if_pos h] at hh
            rw [if_neg h2] at hh
            exact absurd hh (by simp)
          · rintro ⟨b1, ts1, heq, hlt, hlen⟩
            cases heq
            exact absurd hlen h2
      · constructor
        · intro hh
          simp only [fetchTokenBalancesCacheCheck, if_neg h] at hh
          exact absurd hh (by simp)
        · rintro ⟨b1, ts1, heq, hlt, hlen⟩
          cases heq
          exact absurd hlt h
  · intro cache now key
    cases hk : mapGet cache key with
    | none => simp [proxyCacheLookup, hk]
    | some ce =>
      by_cases hf : now - ce.timestamp < CACHE_DURATION
      · constructor
        · intro _
          exact ⟨ce, rfl, hf⟩
        · intro _
          simp [proxyCacheLookup, hk, hf]
      · constructor
        · intro hh
          simp [proxyCacheLookup, hk, hf] at hh
        · rintro ⟨e1, heq, hlt⟩
          cases heq
          exact absurd hlt hf
  · intro α now entry
    cases entry with
    | none => simp [stakingCacheLookup]
    | some e =>
      obtain ⟨d, ts⟩ := e
      by_cases h : now - ts < 10 * 60 * 1000
      · constructor
        · intro _
          exact ⟨d, ts, rfl, h⟩
        · intro _
          simp [stakingCacheLookup, h]
      · constructor
        · intro hh
          simp [stakingCacheLookup, h] at hh
        · rintro ⟨x1, ts1, heq, hlt⟩
          cases heq
          exact absurd hlt h
  · intro α now entry
    cases entry with
    | none => simp [lendingCacheLookup]
    | some e =>
      obtain ⟨d, ts⟩ := e
      by_cases h : now - ts < 15 * 60 * 1000
      · constructor
        · intro _
          exact ⟨d, ts, rfl, h⟩
        · intro _
          simp [lendingCacheLookup, h]
      · constructor
        · intro hh
          simp [lendingCacheLookup, h] at hh
        · rintro ⟨x1, ts1, heq, hlt⟩
          cases heq
          exact absurd hlt h
  · intro β m k v k2
    exact mapGet_mapSet m k v k2

/-- C6 counterexample: a failed ETH balance fetch produces the balance string
`'Error'` (which a later run stores as the `ethBalance` state), and the asset
list built from that state contains an asset record — the ETH entry — whose
balance does not parse to a non-negative number (it is `NaN`).  So not every
asset record produced by the pipeline has a non-negative balance. -/
theorem nonneg_balance_counterexample :
    fetchEthBalance 0 none none = "Error" ∧
    ¬ (∀ a ∈ assetsWithValue "Error" [] [],
        ∃ q, parseFloatQ a.balance = some q ∧ 0 ≤ q) := by
  refine ⟨rfl, ?_⟩
  intro h
  obtain ⟨q, hq, hq0⟩ :=
    h (ethAssetWithValue "Error" []) (List.mem_cons_self _ _)
  have hb : parseFloatQ (ethAssetWithValue "Error" ([] : PriceMap)).balance
      = none := by decide
  rw [hb] at hq
  exact Option.noConfusion hq

/-- Every record passing the `validBalances` filter has a balance that parses
to a strictly positive rational (the `parseFloat(token.balance) > 0` conjunct
of the filter). -/
theorem mem_validBalances_parse {tb : List TokenRec} {t : TokenRec}
    (ht : t ∈ validBalances tb) :
    ∃ q, parseFloatQ t.balance = some q ∧ 0 < q := by
  simp only [validBalances, List.mem_filter] at ht
  have hcond := ht.2
  simp only [Bool.and_eq_true] at hcond
  obtain ⟨⟨⟨⟨⟨he, hp⟩, hs⟩, htr⟩, hu1⟩, hu2⟩ := hcond
  cases hpar : parseFloatQ t.balance with
  | none =>
    rw [hpar] at hp
    exact absurd hp (by simp)
  | some q =>
    rw [hpar] at hp
    simp only [decide_eq_true_eq] at hp
    exact ⟨q, rfl, hp⟩

/-- C6 (amended): every non-ETH token record in the final asset list has a
strictly positive parsed balance (`parseFloat(balance) > 0`, hence
non-negative); the leading ETH entry carries the `ethBalance` state string,
which may be `'Error'` and then parses to `NaN` rather than a non-negative
number. -/
theorem token_balances_positive :
    ∀ (tb : List TokenRec) (prices : PriceMap) (a : AssetVal),
      a ∈ tokenAssetsWithValue tb prices →
        ∃ q, parseFloatQ a.balance = some q ∧ 0 < q := by
  intro tb prices a ha
  simp only [tokenAssetsWithValue, List.mem_map] at ha
  obtain ⟨t, ht, rfl⟩ := ha
  exact mem_validBalances_parse ht

/-- Witness for `token_balances_positive` at a concrete input: the single
valid token with balance `'1.5'` yields an asset whose balance parses to a
positive rational. -/
theorem token_balances_positive_witness :
    ∃ q, parseFloatQ
      ({ address := "0xA", symbol := "AAA", name := "Token A",
         balance := "1.5",
         usdValue := (parseFloatQ "1.5").map (fun b => b * 0),
         error := false } : AssetVal).balance
      = some q ∧ 0 < q :=
  token_balances_positive
    [{ address := "0xA", symbol := "AAA", name := "Token A", decimals := 18,
       balance := "1.5", balanceRaw := "1500000000000000000", error := false,
       cacheTime := 0 }]
    []
    { address := "0xA", symbol := "AAA", name := "Token A",
      balance := "1.5",
      usdValue := (parseFloatQ "1.5").map (fun b => b * 0),
      error := false }
    (by
      refine List.mem_map.mpr
        ⟨{ address := "0xA", symbol := "AAA", name := "Token A", decimals := 18,
           balance := "1.5", balanceRaw := "1500000000000000000",
           error := false, cacheTime := 0 }, ?_, rfl⟩
      refine List.mem_filter.mpr ⟨List.mem_singleton.mpr rfl, ?_⟩
      have h15 : parseFloatQ "1.5" =
          some (1 * ((digitsToNat ['1'] : ℚ) +
            (digitsToNat ['5'] : ℚ) / (10 : ℚ) ^ 1)) := rfl
      have hpos : (0 : ℚ) < 1 * ((digitsToNat ['1'] : ℚ) +
          (digitsToNat ['5'] : ℚ) / (10 : ℚ) ^ 1) := by
        rw [show digitsToNat ['1'] = 1 from by decide,
          show digitsToNat ['5'] = 5 from by decide]
        norm_num
      simp only [h15, decide_eq_true hpos]
      decide)

/-- The net-worth fold of `fetchAssets` (which skips falsy `0` and `NaN`
values) computes the sum of the numeric USD values. -/
theorem totalNetWorth_foldl_eq_sum :
    ∀ (l : List AssetVal) (acc : ℚ),
      l.foldl (fun acc asset =>
        match asset.usdValue with
        | some q => if q ≠ 0 then acc + q else acc
        | none => acc) acc = acc + (l.filterMap AssetVal.usdValue).sum := by
  intro l
  induction l with
  | nil => intro acc; simp
  | cons a rest ih =>
    intro acc
    rw [List.foldl_cons]
    cases hu : a.usdValue with
    | none =>
      rw [ih]
      simp [List.filterMap_cons, hu]
    | some q =>
      by_cases hq : q = 0
      · rw [ih]
        simp [List.filterMap_cons, hu, hq]
      · rw [ih]
        simp only [List.filterMap_cons, hu, List.sum_cons]
        rw [if_pos hq]
        ring

/-- C7: in the final asset list, `usdValue` is `parseFloat(balance)` times the
fetched price whenever a price for the asset's symbol was fetched (with `NaN`
propagating when the balance does not parse), and is `0` when no price is
available; and the net worth reported to the wallet context is the sum of the
numeric `usdValue`s over the whole list, the ETH entry included. -/
theorem usd_value_networth_spec :
    ∀ (eth : String) (tb : List TokenRec) (prices : PriceMap),
      (∀ a ∈ assetsWithValue eth tb prices,
        (∀ e, mapGet prices a.symbol = some e →
          a.usdValue = (parseFloatQ a.balance).map (fun b => b * e.price)) ∧
        (mapGet prices a.symbol = none → a.usdValue = some 0)) ∧
      totalNetWorth (assetsWithValue eth tb prices) =
        ((assetsWithValue eth tb prices).filterMap AssetVal.usdValue).sum := by
  intro eth tb prices
  constructor
  · intro a ha
    rcases List.mem_cons.mp ha with rfl | hmem
    · constructor
      · intro e he
        simp only [ethAssetWithValue] at he ⊢
        rw [he]
      · intro hnone
        simp only [ethAssetWithValue] at hnone ⊢
        rw [hnone]
    · simp only [tokenAssetsWithValue] at hmem
      obtain ⟨t, ht, rfl⟩ := List.mem_map.mp hmem
      constructor
      · intro e he
        simp only at he ⊢
        simp [he]
      · intro hnone
        simp only at hnone ⊢
        obtain ⟨q, hpar, hq⟩ := mem_validBalances_parse ht
        simp [hnone, hpar]
  · simp only [totalNetWorth]
    rw [totalNetWorth_foldl_eq_sum]
    rw [zero_add]

/-- Witness for `usd_value_networth_spec` at a concrete input: with no fetched
prices the ETH entry's value is `0`, and the reported net worth matches the
sum of numeric values. -/
theorem usd_value_networth_spec_witness :
    (ethAssetWithValue "0" []).usdValue = some 0 ∧
    totalNetWorth (assetsWithValue "0" [] []) =
      ((assetsWithValue "0" [] []).filterMap AssetVal.usdValue).sum :=
  ⟨((usd_value_networth_spec "0" [] []).1 (ethAssetWithValue "0" [])
      (List.mem_cons_self _ _)).2 rfl,
   (usd_value_networth_spec "0" [] []).2⟩

/-- Every token kept by `processTokenTransactions` has a non-whitespace symbol
and no URL-like pattern in its symbol or name: the URL check skips the
transaction before insertion, and only transactions with a trimmed non-empty
symbol are inserted. -/
theorem processTokenTransactionsAux_spam_free :
    ∀ (txs : List Tx) (seen : List String) (addr : String) (tok : TokenInfo),
      (addr, tok) ∈ processTokenTransactionsAux seen txs →
        jsTrim tok.symbol ≠ "" ∧ containsUrlPattern tok.symbol = false ∧
          containsUrlPattern tok.name = false := by
  intro txs
  induction txs with
  | nil =>
    intro seen addr tok h
    simp [processTokenTransactionsAux] at h
  | cons tx rest ih =>
    intro seen addr tok h
    simp only [processTokenTransactionsAux] at h
    cases hca : tx.contractAddress with
    | none =>
      rw [hca] at h
      exact ih seen addr tok h
    | some ca =>
      rw [hca] at h
      simp only at h
      by_cases hempty : ca = ""
      · rw [if_pos hempty] at h
        exact ih seen addr tok h
      · rw [if_neg hempty] at h
        by_cases hseen : seen.contains (strToLower ca) = true
        · rw [if_pos hseen] at h
          exact ih seen addr tok h
        · rw [if_neg hseen] at h
          by_cases hurl : (containsUrlPatternOpt tx.tokenSymbol ||
              containsUrlPatternOpt tx.tokenName) = true
          · rw [if_pos hurl] at h
            exact ih _ addr tok h
          · rw [if_neg hurl] at h
            cases hsymf : tx.tokenSymbol with
            | none =>
              rw [hsymf] at h
              simp only [Bool.false_and] at h
              rw [if_neg (by simp)] at h
              exact ih _ addr tok h
            | some sym =>
              rw [hsymf] at h
              simp only at h
              by_cases hsym : (sym ≠ "" && jsTrim sym ≠ "") = true
              · rw [if_pos hsym] at h
                rcases List.mem_cons.mp h with heq | htail
                · cases heq
                  simp only [Bool.and_eq_true, decide_eq_true_eq] at hsym
                  obtain ⟨hne, htrim⟩ := hsym
                  have hor : (containsUrlPatternOpt tx.tokenSymbol ||
                      containsUrlPatternOpt tx.tokenName) = false := by
                    revert hurl
                    cases containsUrlPatternOpt tx.tokenSymbol ||
                      containsUrlPatternOpt tx.tokenName <;> simp
                  simp only [Bool.or_eq_false_iff] at hor
                  obtain ⟨hu1, hu2⟩ := hor
                  rw [hsymf] at hu1
                  simp only [containsUrlPatternOpt] at hu1
                  refine ⟨?_, ?_, ?_⟩
                  · simpa using htrim
                  · simpa using hu1
                  · cases hname : tx.tokenName with
                    | none =>
                      simp only [hname, Option.getD_some]
                      exact hu1
                    | some n =>
                      rw [hname] at hu2
                      simp only [containsUrlPatternOpt] at hu2
                      by_cases hn : n = ""
                      · simp only [hname, hn, if_pos rfl, Option.getD_some]
                        exact hu1
                      · simp only [hname, Option.getD_some, if_neg hn]
                        exact hu2
                · exact ih _ addr tok htail
              · rw [if_neg hsym] at h
                exact ih _ addr tok h

/-- The sample asset is a member of the token part of the asset list built
from the sample record with no fetched prices. -/
theorem sampleAsset_mem :
    sampleAsset ∈ tokenAssetsWithValue [sampleTokenRec] [] := by
  refine List.mem_map.mpr ⟨sampleTokenRec, ?_, rfl⟩
  refine List.mem_filter.mpr ⟨List.mem_singleton.mpr rfl, ?_⟩
  have h15 : parseFloatQ "1.5" =
      some (1 * ((digitsToNat ['1'] : ℚ) +
        (digitsToNat ['5'] : ℚ) / (10 : ℚ) ^ 1)) := rfl
  have hpos : (0 : ℚ) < 1 * ((digitsToNat ['1'] : ℚ) +
      (digitsToNat ['5'] : ℚ) / (10 : ℚ) ^ 1) := by
    rw [show digitsToNat ['1'] = 1 from by decide,
      show digitsToNat ['5'] = 5 from by decide]
    norm_num
  simp only [sampleTokenRec, h15, decide_eq_true hpos]
  decide

/-- C9: no token asset delivered to `onAssetsLoaded` has a whitespace-only
symbol or a URL-pattern symbol or name, and the same holds already for the
tokens kept while processing the transaction history — the spam filter runs
in both places. -/
theorem spam_token_filtering :
    (∀ (tb : List TokenRec) (prices : PriceMap) (a : AssetVal),
      a ∈ tokenAssetsWithValue tb prices →
        jsTrim a.symbol ≠ "" ∧ containsUrlPattern a.symbol = false ∧
          containsUrlPattern a.name = false) ∧
    (∀ (txs : List Tx) (addr : String) (tok : TokenInfo),
      (addr, tok) ∈ processTokenTransactions txs →
        jsTrim tok.symbol ≠ "" ∧ containsUrlPattern tok.symbol = false ∧
          containsUrlPattern tok.name = false) := by
  constructor
  · intro tb prices a ha
    simp only [tokenAssetsWithValue, List.mem_map] at ha
    obtain ⟨t, ht, rfl⟩ := ha
    simp only [validBalances, List.mem_filter] at ht
    have hcond := ht.2
    simp only [Bool.and_eq_true] at hcond
    obtain ⟨⟨⟨⟨⟨he, hp⟩, hs⟩, htr⟩, hu1⟩, hu2⟩ := hcond
    refine ⟨?_, ?_, ?_⟩
    · simpa using htr
    · simpa using hu1
    · simpa using hu2
  · intro txs addr tok h
    exact processTokenTransactionsAux_spam_free txs [] addr tok h

/-- Witness for `spam_token_filtering` at concrete inputs: the sample asset
and the token kept from a single clean Etherscan transaction are both free of
spam markers. -/
theorem spam_token_filtering_witness :
    (jsTrim sampleAsset.symbol ≠ "" ∧
      containsUrlPattern sampleAsset.symbol = false ∧
      containsUrlPattern sampleAsset.name = false) ∧
    (jsTrim sampleTokenInfo.symbol ≠ "" ∧
      containsUrlPattern sampleTokenInfo.symbol = false ∧
      containsUrlPattern sampleTokenInfo.name = false) :=
  ⟨spam_token_filtering.1 [sampleTokenRec] [] sampleAsset sampleAsset_mem,
   spam_token_filtering.2 [sampleTx] "0xb" sampleTokenInfo (by decide)⟩

instance : IsTotal StakingRec (fun a b => b.aprValue ≤ a.aprValue) :=
  ⟨fun a b => le_total b.aprValue a.aprValue⟩

instance : IsTrans StakingRec (fun a b => b.aprValue ≤ a.aprValue) :=
  ⟨fun _ _ _ hab hbc => le_trans hbc hab⟩

/-- The `reduce` of `fetchStakingData` keeps exactly the stats items with a
usable asset symbol and a strictly positive APY, mapping each to its record. -/
theorem processStats_eq_filter_map (pm tm : List (String × Option String)) :
    ∀ stats : List StatsItem,
      processStats pm tm stats =
        (stats.filter fun item =>
          !(statsAssetName tm item == "Unknown") &&
            decide (0 < statsAprValue item)).map (mkStakingRec pm tm) := by
  intro stats
  induction stats with
  | nil => rfl
  | cons item rest ih =>
    simp only [processStats, List.filter_cons]
    by_cases h1 : statsAssetName tm item = "Unknown"
    · rw [if_pos h1]
      have hc : (!(statsAssetName tm item == "Unknown") &&
          decide (0 < statsAprValue item)) = false := by
        simp [h1]
      simp [hc, ih]
    · rw [if_neg h1]
      by_cases h2 : statsAprValue item ≤ 0
      · rw [if_pos h2]
        have hc : (!(statsAssetName tm item == "Unknown") &&
            decide (0 < statsAprValue item)) = false := by
          simp [not_lt.mpr h2]
        simp [hc, ih]
      · rw [if_neg h2]
        have hc : (!(statsAssetName tm item == "Unknown") &&
            decide (0 < statsAprValue item)) = true := by
          simp [h1, not_le.mp h2]
        simp [hc, ih]

/-- C8: the staking opportunities displayed by `StakingData` are exactly the
fetched pools with a known asset symbol and APY strictly greater than 0 whose
symbol matches, case-insensitively, a symbol among the user's assets, sorted
by APY descending; with no user assets the displayed list is empty. -/
theorem staking_display_spec :
    ∀ (protocolMap tokenMap : List (String × Option String))
      (stats : List StatsItem) (userAssets : List AssetVal),
      processStats protocolMap tokenMap stats =
        (stats.filter fun item =>
          !(statsAssetName tokenMap item == "Unknown") &&
            decide (0 < statsAprValue item)).map
          (mkStakingRec protocolMap tokenMap) ∧
      (userAssets = [] →
        filteredStakingData userAssets
          (sortedStakingData protocolMap tokenMap stats) = []) ∧
      List.Sorted (fun a b => b.aprValue ≤ a.aprValue)
        (filteredStakingData userAssets
          (sortedStakingData protocolMap tokenMap stats)) ∧
      (filteredStakingData userAssets
        (sortedStakingData protocolMap tokenMap stats)).Perm
        ((processStats protocolMap tokenMap stats).filter fun item =>
          (userAssetSymbols userAssets).contains (strToUpper item.asset)) := by
  intro pm tm stats ua
  refine ⟨processStats_eq_filter_map pm tm stats, ?_, ?_, ?_⟩
  · intro h
    subst h
    simp [filteredStakingData]
  · unfold filteredStakingData
    by_cases h : ua.isEmpty
    · rw [if_pos h]
      exact List.sorted_nil
    · rw [if_neg h]
      exact (List.sorted_insertionSort _ _).filter _
  · unfold filteredStakingData
    by_cases h : ua.isEmpty
    · rw [if_pos h]
      have hua : ua = [] := List.isEmpty_iff.mp h
      subst hua
      have hnil : (processStats pm tm stats).filter (fun item =>
          (userAssetSymbols []).contains (strToUpper item.asset)) = [] := by
        simp [userAssetSymbols]
      rw [hnil]
    · rw [if_neg h]
      exact (List.perm_insertionSort _ _).filter _

/-- Witness for `staking_display_spec` at a concrete input: with no fetched
pools nothing is processed, and with no user assets nothing is displayed. -/
theorem staking_display_spec_witness :
    processStats [] [] [] = [] ∧
    filteredStakingData [] (sortedStakingData [] [] []) = [] :=
  ⟨by simpa using (staking_display_spec [] [] [] []).1,
   (staking_display_spec [] [] [] []).2.1 rfl⟩
